import Mathlib

/-!
Verification of the incremental synchronization engine of `sync_data.py`:
paginated fetchers, change detection, idempotent upsert persistence,
response-latency derivation, sync-cursor update and core-page selection.
Timestamps are modelled as integers (seconds); the heterogeneous timestamp
parser is a parameter `parse : String → Option Int` where its success or
failure matters.
-/

/-- A row of the `SELECT id, message_time, is_from_page` query inside
`calculate_response_times` (sync_data.py): surrogate id, message timestamp
(`NULL` allowed) and the direction flag. The list handed to the scan is the
conversation's messages in ascending `message_time` order. -/
structure RtMsg where
  id : String
  message_time : Option Int
  is_from_page : Bool
deriving DecidableEq

/-- The anchor/latency loop of `calculate_response_times`: the running
`last_user_msg_time` is the first argument. An inbound (non-page) message
overwrites the anchor with its own time (even when that time is `NULL`); an
outbound (page) message with both the anchor and its own time present yields
`time - anchor`, recorded only when strictly positive, and never touches the
anchor. -/
def rt_scan : Option Int → List RtMsg → List (Int × String)
  | _, [] => []
  | anchor, m :: rest =>
    if m.is_from_page then
      match anchor, m.message_time with
      | some a, some t =>
        if 0 < t - a then (t - a, m.id) :: rt_scan (some a) rest
        else rt_scan (some a) rest
      | some a, none => rt_scan (some a) rest
      | none, _ => rt_scan none rest
    else rt_scan m.message_time rest

/-- Unfolding equation for `rt_scan` on a cons cell. -/
theorem rt_scan_cons (a : Option Int) (m : RtMsg) (rest : List RtMsg) :
    rt_scan a (m :: rest) =
      if m.is_from_page then
        match a, m.message_time with
        | some b, some t =>
          if 0 < t - b then (t - b, m.id) :: rt_scan (some b) rest
          else rt_scan (some b) rest
        | some b, none => rt_scan (some b) rest
        | none, _ => rt_scan none rest
      else rt_scan m.message_time rest := rfl

/-- The update list produced by one latency pass (initial anchor unset). -/
def calc_updates (msgs : List RtMsg) : List (Int × String) :=
  rt_scan none msgs

/-- Replay of the `UPDATE messages SET response_time_seconds = ...` loop on a
store mapping message ids to their stored `response_time_seconds`. -/
def apply_updates (ups : List (Int × String)) (store : String → Option Int) :
    String → Option Int :=
  ups.foldl (fun st u => fun j => if j = u.2 then some u.1 else st j) store

/-- `calculate_response_times`: conversations with fewer than two stored
messages are returned untouched; otherwise the computed updates are written. -/
def calculate_response_times (msgs : List RtMsg) (store : String → Option Int) :
    String → Option Int :=
  if msgs.length < 2 then store else apply_updates (calc_updates msgs) store

/-- Anchor before position `i`: the `message_time` of the most recent inbound
message strictly before `i` (the initial anchor `a` if there is none). -/
def anchor_from (a : Option Int) (msgs : List RtMsg) (i : Nat) : Option Int :=
  match ((msgs.take i).filter (fun m => !m.is_from_page)).getLast? with
  | none => a
  | some m => m.message_time

/-- Positional description of the scan: the latency recorded for the message
at position `i`, measured against the most recent inbound message before it. -/
def recorded_from (a : Option Int) (msgs : List RtMsg) (i : Nat) :
    Option (Int × String) :=
  match msgs[i]? with
  | none => none
  | some m =>
    if m.is_from_page then
      match anchor_from a msgs i, m.message_time with
      | some b, some t => if 0 < t - b then some (t - b, m.id) else none
      | some _, none => none
      | none, _ => none
    else none

/-- Positional description with the anchor initially unset. -/
def recorded_at (msgs : List RtMsg) (i : Nat) : Option (Int × String) :=
  recorded_from none msgs i

/-- The spec's latency example: ordered messages in@0, out@5, out@9, in@20,
out@25. -/
def ex_scan_msgs : List RtMsg :=
  [⟨"m1", some 0, false⟩, ⟨"m2", some 5, true⟩, ⟨"m3", some 9, true⟩,
   ⟨"m4", some 20, false⟩, ⟨"m5", some 25, true⟩]

/-- The spec's out-of-order example: in@10 followed by out@8. -/
def ex_ooo_msgs : List RtMsg :=
  [⟨"a1", some 10, false⟩, ⟨"a2", some 8, true⟩]

/-- Concrete conversation used by the frame-condition witness. -/
def ex_frame_msgs : List RtMsg :=
  [⟨"b1", some 3, false⟩, ⟨"b2", some 7, true⟩, ⟨"b3", some 7, true⟩]

/-- Concrete store used by the frame-condition witness. -/
def ex_frame_store : String → Option Int :=
  fun j => if j = "b9" then some 42 else none

/-- One side of a conversation, as delivered by the platform
(`participants.data` entries and the `from` field of a message). -/
structure Participant where
  id : Option String
  name : Option String
deriving DecidableEq

/-- A conversation as fetched from the conversation-list endpoint. -/
structure FbConv where
  id : String
  participants : List Participant
  updated_time : Option String
  message_count : Int
deriving DecidableEq

/-- A message as fetched from the message-list endpoint (`created_time`
already as seconds). -/
structure FbMsg where
  id : String
  message : Option String
  sender : Participant
  created_time : Option Int
deriving DecidableEq

/-- One page turn of the conversation-list fetch: a successful body (with or
without a continuation link), an API-reported `{error: ...}` body, or a
transport failure (raised `RequestException`, including `raise_for_status`). -/
inductive ConvPage where
  | ok (data : List FbConv) (hasNext : Bool)
  | apiError (msg : String)
  | transport (msg : String)
deriving DecidableEq

/-- One page turn of the message-list fetch. -/
inductive MsgPage where
  | ok (data : List FbMsg) (hasNext : Bool)
  | apiError (msg : String)
  | transport (msg : String)
deriving DecidableEq

/-- The pagination loop of `fetch_conversations`. Note that both failure exits
return the literal empty list, not the accumulator: collected pages are
discarded. -/
def fetch_conversations_go (acc : List FbConv) :
    List ConvPage → List FbConv × Option String
  | [] => (acc, none)
  | ConvPage.transport e :: _ => ([], some e)
  | ConvPage.apiError e :: _ => ([], some e)
  | ConvPage.ok d hasNext :: rest =>
    if hasNext then fetch_conversations_go (acc ++ d) rest else (acc ++ d, none)

/-- `fetch_conversations`: walk the page stream to exhaustion. -/
def fetch_conversations (pages : List ConvPage) : List FbConv × Option String :=
  fetch_conversations_go [] pages

/-- The pagination loop of `fetch_messages`: both an in-body API error
(`break`) and a transport failure (`except: pass`) fall through to returning
the accumulated list, with no error channel at all. -/
def fetch_messages_go (acc : List FbMsg) : List MsgPage → List FbMsg
  | [] => acc
  | MsgPage.transport _ :: _ => acc
  | MsgPage.apiError _ :: _ => acc
  | MsgPage.ok d hasNext :: rest =>
    if hasNext then fetch_messages_go (acc ++ d) rest else acc ++ d

/-- `fetch_messages`: walk the page stream, swallowing failures. -/
def fetch_messages (pages : List MsgPage) : List FbMsg :=
  fetch_messages_go [] pages

/-- A row of the `conversations` table. -/
structure ConvRow where
  conversation_id : String
  page_id : String
  participant_id : Option String
  participant_name : Option String
  updated_time : Option String
  message_count : Int
deriving DecidableEq

/-- A row of the `messages` table (`response_time_seconds` defaults to NULL on
insert and is not in the upsert's update column list). -/
structure MsgRow where
  message_id : String
  conversation_id : String
  page_id : String
  sender_id : Option String
  sender_name : Option String
  message_text : String
  message_time : Option Int
  is_from_page : Bool
  response_time_seconds : Option Int
deriving DecidableEq

/-- Python's `str()` view of a possibly-missing id (`str(None) = "None"`). -/
def pyStr : Option String → String
  | none => "None"
  | some s => s

/-- The value-row construction of `upsert_conversations`: the first
participant whose id differs from the page id supplies id and name. -/
def conv_to_row (page_id : String) (c : FbConv) : ConvRow :=
  match c.participants.find? (fun p => !(pyStr p.id == page_id)) with
  | some p => ⟨c.id, page_id, p.id, p.name, c.updated_time, c.message_count⟩
  | none => ⟨c.id, page_id, none, none, c.updated_time, c.message_count⟩

/-- The value-row construction of `upsert_messages`. -/
def msg_to_row (page_id conversation_id : String) (m : FbMsg) : MsgRow :=
  ⟨m.id, conversation_id, page_id, m.sender.id, m.sender.name,
    m.message.getD "", m.created_time, pyStr m.sender.id == page_id, none⟩

/-- `ON CONFLICT (conversation_id) DO UPDATE`: only `updated_time`,
`message_count` and `participant_name` are refreshed. -/
def merge_conv (x r : ConvRow) : ConvRow :=
  { x with updated_time := r.updated_time, message_count := r.message_count,
           participant_name := r.participant_name }

/-- `ON CONFLICT (message_id) DO UPDATE`: only `message_text`, `message_time`
and `sender_name` are refreshed (`response_time_seconds` is untouched). -/
def merge_msg (x r : MsgRow) : MsgRow :=
  { x with message_text := r.message_text, message_time := r.message_time,
           sender_name := r.sender_name }

section GenericUpsert

variable {R : Type} (key : R → String) (merge : R → R → R)

/-- Whether a key occurs in the table. -/
def key_mem (tbl : List R) (k : String) : Bool :=
  tbl.any (fun x => decide (key x = k))

/-- Effect of one batch row on one stored row (update when keys collide). -/
def chain_step (x r : R) : R := if key x = key r then merge x r else x

/-- Insert-or-update of one value row, keyed on the stable external id:
update the colliding row in place, or append a fresh row. -/
def upsert_row (tbl : List R) (r : R) : List R :=
  if key_mem key tbl (key r) then tbl.map (fun x => chain_step key merge x r)
  else tbl ++ [r]

/-- Insert-or-update of a whole batch, row by row. -/
def upsert_rows (tbl : List R) (rs : List R) : List R :=
  rs.foldl (upsert_row key merge) tbl

/-- Cumulative effect of the whole batch on one stored row. -/
def chain_all (rs : List R) (x : R) : R := rs.foldl (chain_step key merge) x

end GenericUpsert

/-- `upsert_conversations` on a committed table (success path): returns the
new table and the reported row count (`len(values)`; 0 for an empty batch). -/
def upsert_conversations (tbl : List ConvRow) (page_id : String)
    (convs : List FbConv) : List ConvRow × Nat :=
  if convs.isEmpty then (tbl, 0)
  else (upsert_rows ConvRow.conversation_id merge_conv tbl
          (convs.map (conv_to_row page_id)), convs.length)

/-- `upsert_messages` on a committed table (success path). -/
def upsert_messages (tbl : List MsgRow) (page_id conversation_id : String)
    (msgs : List FbMsg) : List MsgRow × Nat :=
  if msgs.isEmpty then (tbl, 0)
  else (upsert_rows MsgRow.message_id merge_msg tbl
          (msgs.map (msg_to_row page_id conversation_id)), msgs.length)

/-- A database connection's transactional view: the durable state and the
in-transaction pending state. -/
structure Tx (σ : Type) where
  committed : σ
  pending : σ
deriving DecidableEq

/-- `upsert_conversations` with its `try/commit/except/rollback` wrapper:
when the batched write raises (`write_fails`), the transaction is rolled back
(pending reset to the committed state), 0 rows are reported, and the function
returns normally instead of propagating the exception. -/
def upsert_conversations_tx (tx : Tx (List ConvRow)) (page_id : String)
    (convs : List FbConv) (write_fails : Bool) : Tx (List ConvRow) × Nat :=
  if convs.isEmpty then (tx, 0)
  else if write_fails then ({ committed := tx.committed, pending := tx.committed }, 0)
  else
    let s := (upsert_conversations tx.pending page_id convs).1
    ({ committed := s, pending := s }, convs.length)

/-- `upsert_messages` with its `try/commit/except/rollback` wrapper. -/
def upsert_messages_tx (tx : Tx (List MsgRow)) (page_id conversation_id : String)
    (msgs : List FbMsg) (write_fails : Bool) : Tx (List MsgRow) × Nat :=
  if msgs.isEmpty then (tx, 0)
  else if write_fails then ({ committed := tx.committed, pending := tx.committed }, 0)
  else
    let s := (upsert_messages tx.pending page_id conversation_id msgs).1
    ({ committed := s, pending := s }, msgs.length)

/-- Python truthiness of an optional error string (`if error:`). -/
def py_truthy : Option String → Bool
  | none => false
  | some s => !(s == "")

/-- The `updated_time` parse used by the change filter, extended to an absent
or empty fetched value (both of which Python treats as falsy). -/
def parse_opt (parse : String → Option Int) : Option String → Option Int
  | none => none
  | some s => if s = "" then none else parse s

/-- The change-detection decision of `sync_page` for one conversation,
`true` meaning "fetch this conversation's messages". A conversation with no
stored `updated_time` is new; a falsy fetched `updated_time` falls to the
final `else`; a parse failure on either timestamp lands in the `except`
branch; all three mean "fetch". Otherwise fetch iff the fetched timestamp is
strictly newer. -/
def classify_conv (parse : String → Option Int)
    (existing_updated conv_updated : Option String) : Bool :=
  match existing_updated with
  | none => true
  | some es =>
    match conv_updated with
    | none => true
    | some cs =>
      if cs = "" then true
      else
        match parse cs, parse es with
        | some cd, some ed => decide (ed < cd)
        | some _, none => true
        | none, _ => true

/-- One step of the changed/skipped fold in `sync_page`. -/
def classify_step (parse : String → Option Int)
    (existing : String → Option String) (acc : List FbConv × Nat)
    (conv : FbConv) : List FbConv × Nat :=
  if classify_conv parse (existing conv.id) conv.updated_time
  then (acc.1 ++ [conv], acc.2)
  else (acc.1, acc.2 + 1)

/-- The changed-conversation filter of `sync_page`: the changed list in
order, and the `conversations_skipped` counter. -/
def scan_convs (parse : String → Option Int)
    (existing : String → Option String) (convs : List FbConv) :
    List FbConv × Nat :=
  convs.foldl (classify_step parse existing) ([], 0)

/-- `get_existing_conversations`: the stored `conversation_id → updated_time`
map for one page (a missing row and a stored NULL are indistinguishable,
exactly as in the Python dict built from the query). -/
def get_existing_conversations (tbl : List ConvRow) (page_id : String) :
    String → Option String :=
  fun cid =>
    match tbl.find? (fun r =>
        decide (r.page_id = page_id) && decide (r.conversation_id = cid)) with
    | none => none
    | some r => r.updated_time

/-- `ORDER BY message_time ASC` comparison (NULLs last, as in Postgres). -/
def time_le (a b : Option Int) : Bool :=
  match a, b with
  | none, none => true
  | none, some _ => false
  | some _, none => true
  | some x, some y => decide (x ≤ y)

/-- Stable insertion used to sort a conversation's rows by time. -/
def insert_msg_row (m : MsgRow) : List MsgRow → List MsgRow
  | [] => [m]
  | x :: t =>
    if time_le m.message_time x.message_time then m :: x :: t
    else x :: insert_msg_row m t

/-- Stable sort of message rows by ascending `message_time`. -/
def sort_msg_rows : List MsgRow → List MsgRow
  | [] => []
  | m :: t => insert_msg_row m (sort_msg_rows t)

/-- `calculate_response_times` acting on the messages table: select the
conversation's rows in ascending time order, run the scan, and write each
positive latency back by id. -/
def db_calculate_response_times (tbl : List MsgRow) (conversation_id : String) :
    List MsgRow :=
  let sel := sort_msg_rows (tbl.filter (fun r =>
    decide (r.conversation_id = conversation_id)))
  let ms : List RtMsg := sel.map (fun r =>
    ⟨r.message_id, r.message_time, r.is_from_page⟩)
  if ms.length < 2 then tbl
  else
    (calc_updates ms).foldl
      (fun t u => t.map (fun r =>
        if r.message_id = u.2 then { r with response_time_seconds := some u.1 }
        else r)) tbl

/-- The per-page `result` record built by `sync_page` (its `sync_time` is the
timestamp recorded when the record is created). -/
structure PageTaskResult where
  page_name : String
  page_id : String
  conversations : Nat
  conversations_skipped : Nat
  messages : Nat
  error : Option String
  sync_time : Int
deriving DecidableEq

/-- The durable store: conversations and messages tables. -/
structure Db where
  convs : List ConvRow
  msgs : List MsgRow
deriving DecidableEq

/-- Observable outcome of one page pipeline: the result record, the final
store, and the ids of the conversations whose messages were fetched. -/
structure SyncOut where
  result : PageTaskResult
  db : Db
  fetched_msgs_for : List String
deriving DecidableEq

/-- The per-changed-conversation body of `sync_page`'s message loop: fetch the
conversation's messages, upsert them, and when any row was written run the
latency pass; the trace records the conversation id. -/
def msg_loop_step (page_id : String) (msgStream : String → List MsgPage)
    (st : List MsgRow × Nat × List String) (conv : FbConv) :
    List MsgRow × Nat × List String :=
  let msgs := fetch_messages (msgStream conv.id)
  let up := upsert_messages st.1 page_id conv.id msgs
  let tbl2 := if 0 < up.2 then db_calculate_response_times up.1 conv.id else up.1
  (tbl2, st.2.1 + up.2, st.2.2 ++ [conv.id])

/-- `sync_page` (persistence success path): fetch the conversation list; on a
truthy error, report it and stop; on an empty list, stop; otherwise scan for
changed conversations, upsert the metadata of every fetched conversation, and
fetch/upsert messages only for the changed ones. -/
def sync_page_model (parse : String → Option Int) (page_id page_name : String)
    (now : Int) (convStream : List ConvPage)
    (msgStream : String → List MsgPage) (db : Db) : SyncOut :=
  let result0 : PageTaskResult := ⟨page_name, page_id, 0, 0, 0, none, now⟩
  let fetched := fetch_conversations convStream
  if py_truthy fetched.2 then
    ⟨{ result0 with error := fetched.2 }, db, []⟩
  else if fetched.1.isEmpty then ⟨result0, db, []⟩
  else
    let existing := get_existing_conversations db.convs page_id
    let scanned := scan_convs parse existing fetched.1
    let up := upsert_conversations db.convs page_id fetched.1
    let fin := scanned.1.foldl (msg_loop_step page_id msgStream) (db.msgs, 0, [])
    ⟨⟨page_name, page_id, up.2, scanned.2, fin.2.1, none, now⟩,
      ⟨up.1, fin.1⟩, fin.2.2⟩

/-- One tenant's entry in `sync_status.json`. -/
structure CursorRec where
  last_sync : Int
  conversations : Nat
  messages : Nat
deriving DecidableEq

/-- The cursor update in `main`'s result loop: a result with a truthy error
leaves the store untouched; otherwise the tenant's entry is rewritten from
the result record. -/
def cursor_step (st : String → Option CursorRec) (r : PageTaskResult) :
    String → Option CursorRec :=
  if py_truthy r.error then st
  else fun pid =>
    if pid = r.page_id then some ⟨r.sync_time, r.conversations, r.messages⟩
    else st pid

/-- The whole cursor rewrite at the end of a run, over the results in their
arrival order. -/
def update_sync_status (status : String → Option CursorRec)
    (results : List PageTaskResult) : String → Option CursorRec :=
  results.foldl cursor_step status

/-- The seven hard-coded core page names. -/
def CORE_PAGES : List String :=
  ["Juan365", "JuanBingo", "Juan365 Cares", "Juan365 Live Stream",
   "Juan365 LiveStream", "JuanSports", "Juan365 Studios"]

/-- ASCII case folding of one character (the `.lower()` of the source,
sufficient for the ASCII core names), as a code point. -/
def lower_nat (c : Char) : Nat :=
  if 65 ≤ c.toNat ∧ c.toNat ≤ 90 then c.toNat + 32 else c.toNat

/-- Whether `needle` starts `hay`, after case folding. -/
def sub_at : List Char → List Char → Bool
  | [], _ => true
  | _ :: _, [] => false
  | a :: n, b :: h => (lower_nat a == lower_nat b) && sub_at n h

/-- Whether `needle` occurs inside `hay` after case folding (Python's
`needle.lower() in hay.lower()`). -/
def has_sub (needle : List Char) : List Char → Bool
  | [] => needle.isEmpty
  | c :: t => sub_at needle (c :: t) || has_sub needle t

/-- Python `needle.lower() in hay.lower()` on strings. -/
def str_in (needle hay : String) : Bool := has_sub needle.toList hay.toList

/-- The `is_core` test of `main`: the page name case-insensitively
substring-matches some core name in either direction. -/
def is_core (page_name : String) : Bool :=
  CORE_PAGES.any (fun core =>
    str_in core page_name || str_in page_name core)

/-- Days fetched on a tenant's first run. -/
def FIRST_RUN_DAYS : Int := 7

/-- Days fetched on subsequent runs. -/
def SUBSEQUENT_RUN_DAYS : Int := 2

/-- Seconds per day (for the look-back window). -/
def day_seconds : Int := 86400

/-- A resolved token-store entry. -/
structure TokenData where
  token : Option String
deriving DecidableEq

/-- One entry of `pages_to_sync`. -/
structure PageTask where
  page_id : String
  page_name : String
  access_token : String
  since_time : Int
deriving DecidableEq

/-- The per-page selection body of `main`'s preparation loop: non-core pages
are dropped before the credential lookup; then a missing token entry or a
falsy token drops the page; the look-back window is narrower when a cursor
entry exists. -/
def page_select (find_token : String → Option TokenData)
    (sync_status : String → Option CursorRec) (now : Int)
    (p : String × String) : Option PageTask :=
  if is_core p.2 = false then none
  else
    match find_token p.2 with
    | none => none
    | some td =>
      match td.token with
      | none => none
      | some tok =>
        if tok = "" then none
        else
          some ⟨p.1, p.2, tok,
            now - (if (sync_status p.1).isSome then SUBSEQUENT_RUN_DAYS
                   else FIRST_RUN_DAYS) * day_seconds⟩

/-- `pages_to_sync`: the pages of the database that survive the selection. -/
def pages_to_sync_model (find_token : String → Option TokenData)
    (sync_status : String → Option CursorRec) (now : Int)
    (db_pages : List (String × String)) : List PageTask :=
  db_pages.filterMap (page_select find_token sync_status now)

/-- The run's result records: one per selected page, produced by its
pipeline. -/
def main_results (parse : String → Option Int)
    (find_token : String → Option TokenData)
    (sync_status : String → Option CursorRec) (now : Int)
    (db_pages : List (String × String))
    (convStream : String → List ConvPage)
    (msgStream : String → List MsgPage) (db : Db) : List PageTaskResult :=
  (pages_to_sync_model find_token sync_status now db_pages).map
    (fun t => (sync_page_model parse t.page_id t.page_name now
        (convStream t.page_id) msgStream db).result)

/-- A tiny concrete timestamp parser used by witnesses: digits only. -/
def ex_parse : String → Option Int := fun s =>
  if s = "3" then some 3
  else if s = "4" then some 4
  else if s = "5" then some 5
  else if s = "7" then some 7
  else none

/-- Conversation used by the partial-fetch counterexample. -/
def c2_conv : FbConv := ⟨"c1", [], none, 0⟩

/-- Page stream whose first page succeeds (with a continuation) and whose
second page fails in transport. -/
def c2_pages : List ConvPage :=
  [ConvPage.ok [c2_conv] true, ConvPage.transport "boom"]

/-- Concrete inputs for the change-detection witness. -/
def c3_existing : String → Option String := fun _ => some "5"

/-- Concrete conversation batch for the change-detection witness: "k1" is
strictly newer than the stored 5, "k2" is not. -/
def c3_convs : List FbConv :=
  [⟨"k1", [], some "7", 1⟩, ⟨"k2", [], some "4", 1⟩]

/-- Conversation with a real participant, for the metadata-upsert witness. -/
def c5_conv1 : FbConv := ⟨"c1", [⟨some "u1", some "Alice"⟩], some "5", 2⟩

/-- Conversation whose fetched timestamp does not parse. -/
def c5_conv2 : FbConv := ⟨"c2", [], some "bad", 1⟩

/-- Single successful conversation-list page for the witness. -/
def c5_stream : List ConvPage := [ConvPage.ok [c5_conv1, c5_conv2] false]

/-- A message returned for every conversation in the witness. -/
def c5_msg : FbMsg := ⟨"mm1", some "hi", ⟨some "u1", some "Alice"⟩, some 100⟩

/-- Message oracle for the witness. -/
def c5_msgStream : String → List MsgPage := fun _ => [MsgPage.ok [c5_msg] false]

/-- Initial store for the witness: "c1" is already known with an older
timestamp. -/
def c5_db : Db := ⟨[⟨"c1", "p", some "u1", some "Alice", some "3", 1⟩], []⟩

/-- A result record carrying an error. -/
def c6_res_err : PageTaskResult := ⟨"P1", "p1", 1, 0, 2, some "boom", 5⟩

/-- A result record carrying no error. -/
def c6_res_ok : PageTaskResult := ⟨"P2", "p2", 3, 1, 4, none, 9⟩

/-- Result list for the cursor witness. -/
def c6_results : List PageTaskResult := [c6_res_err, c6_res_ok]

/-- Initial cursor store for the witness. -/
def c6_status : String → Option CursorRec := fun _ => none

/-- A conversation-table transaction at rest (pending = committed). -/
def c8_txc : Tx (List ConvRow) := ⟨[], []⟩

/-- A message-table transaction at rest. -/
def c8_txm : Tx (List MsgRow) := ⟨[], []⟩

/-- A batch for the rollback witness. -/
def c8_convs : List FbConv := [c2_conv]

/-- A message batch for the rollback witness. -/
def c8_msgs : List FbMsg := [⟨"m1", some "x", ⟨some "u", none⟩, some 1⟩]

/-- Token store for the core-page witness: every page resolves. -/
def c9_ft : String → Option TokenData := fun _ => some ⟨some "tok"⟩

/-- Cursor store for the core-page witness. -/
def c9_ss : String → Option CursorRec := fun _ => none

/-- Database pages for the core-page witness: one core page, one other. -/
def c9_pages : List (String × String) := [("1", "Juan365"), ("2", "OtherPage")]

theorem aux_getLast_cons {α : Type} (x : α) (l : List α) :
    (x :: l).getLast? = some (l.getLast?.getD x) := by
  induction l generalizing x with
  | nil => rfl
  | cons y t ih =>
    rw [List.getLast?_cons_cons, ih y]
    rfl

theorem aux_anchor_shift (a : Option Int) (m : RtMsg) (msgs : List RtMsg)
    (i : Nat) :
    anchor_from a (m :: msgs) (i + 1) =
      anchor_from (if m.is_from_page then a else m.message_time) msgs i := by
  unfold anchor_from
  rw [List.take_succ_cons, List.filter_cons]
  by_cases hm : m.is_from_page
  · simp [hm]
  · have hm' : m.is_from_page = false := by simpa using hm
    simp only [hm', Bool.not_false, if_true, Bool.false_eq_true, if_false]
    rw [aux_getLast_cons]
    cases h : ((msgs.take i).filter (fun m => !m.is_from_page)).getLast? with
    | none => simp [h]
    | some z => simp [h]

theorem aux_recorded_shift (a : Option Int) (m : RtMsg) (msgs : List RtMsg)
    (i : Nat) :
    recorded_from a (m :: msgs) (i + 1) =
      recorded_from (if m.is_from_page then a else m.message_time) msgs i := by
  unfold recorded_from
  rw [List.getElem?_cons_succ, aux_anchor_shift]

theorem aux_recorded_zero (a : Option Int) (m : RtMsg) (msgs : List RtMsg) :
    recorded_from a (m :: msgs) 0 =
      (if m.is_from_page then
        match a, m.message_time with
        | some b, some t => if 0 < t - b then some (t - b, m.id) else none
        | some _, none => none
        | none, _ => none
      else none) := by
  unfold recorded_from anchor_from
  simp

theorem aux_rt_scan_eq (msgs : List RtMsg) : ∀ a,
    rt_scan a msgs = (List.range msgs.length).filterMap (recorded_from a msgs) := by
  induction msgs with
  | nil => intro a; rfl
  | cons m rest ih =>
    intro a
    have hlen : (m :: rest).length = rest.length + 1 := rfl
    have htail : List.filterMap (recorded_from a (m :: rest))
        ((List.range rest.length).map Nat.succ)
        = rt_scan (if m.is_from_page then a else m.message_time) rest := by
      rw [List.filterMap_map, ih]
      apply List.filterMap_congr
      intro i _
      simpa using aux_recorded_shift a m rest i
    rw [hlen, List.range_succ_eq_map, List.filterMap_cons, htail,
        aux_recorded_zero, rt_scan_cons]
    by_cases hm : m.is_from_page
    · simp only [hm, if_true]
      cases ha : a with
      | none => simp
      | some b =>
        cases ht : m.message_time with
        | none => simp
        | some t =>
          by_cases hpos : 0 < t - b
          · simp [hpos]
          · simp [hpos]
    · simp [hm]

theorem aux_rt_scan_pos : ∀ (msgs : List RtMsg) (a : Option Int) (u : Int × String),
    u ∈ rt_scan a msgs → 0 < u.1 := by
  intro msgs
  induction msgs with
  | nil => intro a u h; simp [rt_scan] at h
  | cons m rest ih =>
    intro a u h
    rw [rt_scan_cons] at h
    by_cases hm : m.is_from_page
    · simp only [hm, if_true] at h
      cases ha : a with
      | none =>
        rw [ha] at h
        exact ih none u h
      | some b =>
        rw [ha] at h
        cases ht : m.message_time with
        | none =>
          rw [ht] at h
          exact ih (some b) u h
        | some t =>
          rw [ht] at h
          by_cases hpos : 0 < t - b
          · simp only [hpos, if_true] at h
            rcases List.mem_cons.mp h with h1 | h2
            · rw [h1]; exact hpos
            · exact ih (some b) u h2
          · simp only [hpos, if_false] at h
            exact ih (some b) u h
    · simp only [hm, Bool.false_eq_true, if_false] at h
      exact ih m.message_time u h

theorem aux_apply_updates_frame :
    ∀ (ups : List (Int × String)) (st : String → Option Int) (j : String),
      j ∉ ups.map Prod.snd → apply_updates ups st j = st j := by
  intro ups
  induction ups with
  | nil => intro st j _; rfl
  | cons u t ih =>
    intro st j hj
    simp only [List.map_cons, List.mem_cons] at hj
    push_neg at hj
    have hstep : apply_updates (u :: t) st j =
        apply_updates t (fun k => if k = u.2 then some u.1 else st k) j := rfl
    rw [hstep, ih _ j hj.2]
    simp [hj.1]

/-- C1: the latency derivation scans the stored messages in ascending time
order with the most recent inbound message's time as the anchor; each outbound
message with an anchor (and a time) is assigned `time − anchor`, recorded only
when strictly positive, and an outbound message never updates the anchor. This
is stated as: the stateful scan equals its positional description in terms of
the most recent prior inbound message; for `[in@0, out@5, out@9, in@20,
out@25]` the recorded latencies are `[null, 5, 9, null, 5]`; and `in@10`
followed by `out@8` records nothing. -/
theorem latency_scan_spec :
    (∀ msgs : List RtMsg,
      calc_updates msgs = (List.range msgs.length).filterMap (recorded_at msgs))
    ∧ (List.range 5).map (fun i => (recorded_at ex_scan_msgs i).map Prod.fst)
        = [none, some 5, some 9, none, some 5]
    ∧ calc_updates ex_scan_msgs = [(5, "m2"), (9, "m3"), (5, "m5")]
    ∧ calc_updates ex_ooo_msgs = [] := by
  refine ⟨fun msgs => aux_rt_scan_eq msgs none, ?_, ?_, ?_⟩
  · decide
  · decide
  · decide

/-- C10: a latency pass only ever writes strictly positive values; a message
for which no strictly positive latency is computed keeps its stored
`response_time_seconds` unchanged; and a conversation with fewer than two
stored messages is left entirely unchanged. -/
theorem latency_pass_frame_conditions :
    ∀ (msgs : List RtMsg) (store : String → Option Int),
      (msgs.length < 2 → calculate_response_times msgs store = store)
      ∧ (∀ u ∈ calc_updates msgs, 0 < u.1)
      ∧ (∀ j, j ∉ (calc_updates msgs).map Prod.snd →
          calculate_response_times msgs store j = store j) := by
  intro msgs store
  refine ⟨?_, ?_, ?_⟩
  · intro h
    unfold calculate_response_times
    simp [h]
  · intro u hu
    exact aux_rt_scan_pos msgs none u hu
  · intro j hj
    unfold calculate_response_times
    by_cases h2 : msgs.length < 2
    · simp [h2]
    · simp only [h2, if_false]
      exact aux_apply_updates_frame _ store j hj

/-- Witness for C10's frame condition at a concrete conversation and store:
"b1" (inbound) and "b3" (outbound at the same time as "b2") receive no
positive latency, so their stored values survive; a short conversation is
untouched. -/
theorem latency_pass_frame_conditions_witness :
    calculate_response_times ex_frame_msgs ex_frame_store "b9" =
        ex_frame_store "b9"
      ∧ calculate_response_times ex_ooo_msgs ex_frame_store "a2" =
        ex_frame_store "a2" :=
  ⟨(latency_pass_frame_conditions ex_frame_msgs ex_frame_store).2.2 "b9"
      (by decide),
   (latency_pass_frame_conditions ex_ooo_msgs ex_frame_store).2.2 "a2"
      (by decide)⟩

theorem aux_fetch_conv_go_err :
    ∀ (pages : List ConvPage) (acc : List FbConv),
      (fetch_conversations_go acc pages).2 ≠ none →
      (fetch_conversations_go acc pages).1 = [] := by
  intro pages
  induction pages with
  | nil => intro acc h; simp [fetch_conversations_go] at h
  | cons p rest ih =>
    intro acc h
    cases p with
    | ok d hasNext =>
      cases hasNext with
      | true =>
        simp only [fetch_conversations_go, if_true] at h ⊢
        exact ih (acc ++ d) h
      | false => simp [fetch_conversations_go] at h
    | apiError e => rfl
    | transport e => rfl

/-- C2 counterexample: with a first page carrying one conversation and a
continuation link, and a second page failing in transport, the fetch returns
the empty list (with the error) although one conversation had already been
collected — the claim's "partial results are retained" is false on the code. -/
theorem conv_fetch_drops_partial_counterexample :
    fetch_conversations [ConvPage.ok [c2_conv] false] = ([c2_conv], none)
    ∧ fetch_conversations c2_pages = ([], some "boom")
    ∧ ([] : List FbConv) ≠ [c2_conv] := by
  refine ⟨by decide, by decide, by decide⟩

/-- C2 amended: when the conversation-list fetch reports a non-nil error
(transport failure or API-reported error), it returns the empty list — the
conversations collected from earlier pages are discarded, not retained. -/
theorem conv_fetch_error_returns_empty :
    ∀ pages : List ConvPage,
      (fetch_conversations pages).2 ≠ none → (fetch_conversations pages).1 = [] := by
  intro pages h
  exact aux_fetch_conv_go_err pages [] h

/-- Witness: the amended statement at the counterexample's page stream. -/
theorem conv_fetch_error_returns_empty_witness :
    (fetch_conversations c2_pages).1 = [] :=
  conv_fetch_error_returns_empty c2_pages (by decide)

theorem aux_scan_go (parse : String → Option Int)
    (existing : String → Option String) :
    ∀ (convs : List FbConv) (acc : List FbConv × Nat),
      convs.foldl (classify_step parse existing) acc
        = (acc.1 ++ convs.filter (fun c =>
              classify_conv parse (existing c.id) c.updated_time),
           acc.2 + (convs.filter (fun c =>
              !(classify_conv parse (existing c.id) c.updated_time))).length) := by
  intro convs
  induction convs with
  | nil => intro acc; simp
  | cons c rest ih =>
    intro acc
    rw [List.foldl_cons, ih]
    unfold classify_step
    by_cases hc : classify_conv parse (existing c.id) c.updated_time
    · simp [hc, List.filter_cons, List.append_assoc]
    · simp only [hc, if_false, List.filter_cons, Bool.not_eq_true'] at *
      simp [hc, List.filter_cons]
      omega

/-- C3: a conversation with no stored `updated_time` always has its messages
fetched; when the stored timestamp parses to `ed`, the messages are fetched
iff the fetched timestamp fails to parse (including absent/empty) or parses
strictly newer than `ed`, and the conversation is counted as skipped iff the
fetched timestamp parses to a value `≤ ed`; the changed list and skip counter
of the scan are exactly the conversations passing/failing that test. -/
theorem change_detection_gate :
    ∀ (parse : String → Option Int) (existing : String → Option String)
      (convs : List FbConv) (es : String) (ed : Int) (fetched : Option String),
      classify_conv parse none fetched = true
      ∧ (parse es = some ed →
          ((classify_conv parse (some es) fetched = true ↔
              parse_opt parse fetched = none
              ∨ ∃ cd, parse_opt parse fetched = some cd ∧ ed < cd)
            ∧ (classify_conv parse (some es) fetched = false ↔
              ∃ cd, parse_opt parse fetched = some cd ∧ cd ≤ ed)))
      ∧ (scan_convs parse existing convs).1
          = convs.filter (fun c =>
              classify_conv parse (existing c.id) c.updated_time)
      ∧ (scan_convs parse existing convs).2
          = (convs.filter (fun c =>
              !(classify_conv parse (existing c.id) c.updated_time))).length := by
  intro parse existing convs es ed fetched
  refine ⟨rfl, ?_, ?_, ?_⟩
  · intro hp
    cases fetched with
    | none => simp [classify_conv, parse_opt]
    | some cs =>
      by_cases hcs : cs = ""
      · simp [classify_conv, parse_opt, hcs]
      · cases hpc : parse cs with
        | none => simp [classify_conv, parse_opt, hcs, hpc, hp]
        | some cd =>
          constructor
          · simp only [classify_conv, parse_opt, hcs, if_false, hpc, hp,
              decide_eq_true_eq]
            constructor
            · intro hlt
              exact Or.inr ⟨cd, rfl, hlt⟩
            · rintro (hnone | ⟨cd', hcd', hlt⟩)
              · exact absurd hnone (by simp)
              · cases Option.some.inj hcd'
                exact hlt
          · simp only [classify_conv, parse_opt, hcs, if_false, hpc, hp,
              decide_eq_false_iff_not, not_lt]
            constructor
            · intro hle
              exact ⟨cd, rfl, hle⟩
            · rintro ⟨cd', hcd', hle⟩
              cases Option.some.inj hcd'
              exact hle
  · rw [show scan_convs parse existing convs
        = convs.foldl (classify_step parse existing) ([], 0) from rfl,
      aux_scan_go]
    simp
  · rw [show scan_convs parse existing convs
        = convs.foldl (classify_step parse existing) ([], 0) from rfl,
      aux_scan_go]
    simp

/-- Witness: with stored timestamp "5" (parsing to 5), a fetched "7" is
classified as changed, and on a concrete batch the scan splits into the
changed list and skip count accordingly. -/
theorem change_detection_gate_witness :
    (classify_conv ex_parse (some "5") (some "7") = true ↔
        parse_opt ex_parse (some "7") = none
        ∨ ∃ cd, parse_opt ex_parse (some "7") = some cd ∧ (5 : Int) < cd)
    ∧ (scan_convs ex_parse c3_existing c3_convs).2
        = (c3_convs.filter (fun c =>
            !(classify_conv ex_parse (c3_existing c.id) c.updated_time))).length :=
  ⟨((change_detection_gate ex_parse c3_existing c3_convs "5" 5 (some "7")).2.1
      (by decide)).1,
   (change_detection_gate ex_parse c3_existing c3_convs "5" 5 (some "7")).2.2.2⟩

theorem aux_chain_all_key {R : Type} (key : R → String) (merge : R → R → R)
    (hK : ∀ a b, key (merge a b) = key a) :
    ∀ (rs : List R) (x : R), key (chain_all key merge rs x) = key x := by
  intro rs
  induction rs with
  | nil => intro x; rfl
  | cons r t ih =>
    intro x
    have hstep : chain_all key merge (r :: t) x
        = chain_all key merge t (chain_step key merge x r) := rfl
    rw [hstep, ih]
    unfold chain_step
    by_cases h : key x = key r
    · simp [h, hK]
    · simp [h]

theorem aux_chain_absorb {R : Type} (key : R → String) (merge : R → R → R)
    (hM : ∀ a b c, merge (merge a b) c = merge a c) :
    ∀ (rs : List R) (x : R),
      chain_all key merge rs x = x ∨ ∃ z, chain_all key merge rs x = merge x z := by
  intro rs
  induction rs with
  | nil => intro x; exact Or.inl rfl
  | cons r t ih =>
    intro x
    have hstep : chain_all key merge (r :: t) x
        = chain_all key merge t (chain_step key merge x r) := rfl
    rw [hstep]
    unfold chain_step
    by_cases h : key x = key r
    · simp only [h, if_true]
      rcases ih (merge x r) with h1 | ⟨z, hz⟩
      · exact Or.inr ⟨r, h1⟩
      · exact Or.inr ⟨z, by rw [hz, hM]⟩
    · simp only [h, if_false]
      exact ih x

theorem aux_merge_chain {R : Type} (key : R → String) (merge : R → R → R)
    (hM : ∀ a b c, merge (merge a b) c = merge a c)
    (rs : List R) (x r : R) :
    merge (chain_all key merge rs x) r = merge x r := by
  rcases aux_chain_absorb key merge hM rs x with h | ⟨z, hz⟩
  · rw [h]
  · rw [hz, hM]

theorem aux_key_mem_map {R : Type} (key : R → String) (f : R → R)
    (hf : ∀ x, key (f x) = key x) (tbl : List R) (k : String) :
    key_mem key (tbl.map f) k = key_mem key tbl k := by
  unfold key_mem
  rw [List.any_map]
  congr 1
  funext x
  simp [Function.comp, hf]

theorem aux_key_mem_false {R : Type} (key : R → String) (tbl : List R)
    (k : String) (h : key_mem key tbl k = false) :
    ∀ x ∈ tbl, ¬(key x = k) := by
  intro x hx
  unfold key_mem at h
  rw [List.any_eq_false] at h
  have := h x hx
  simpa using this

theorem aux_chain_step_key {R : Type} (key : R → String) (merge : R → R → R)
    (hK : ∀ a b, key (merge a b) = key a) (r : R) :
    ∀ x, key (chain_step key merge x r) = key x := by
  intro x
  unfold chain_step
  by_cases h : key x = key r
  · simp [h, hK]
  · simp [h]

theorem aux_upsert_row_mem {R : Type} (key : R → String) (merge : R → R → R)
    (hK : ∀ a b, key (merge a b) = key a) (tbl : List R) (r : R) (k : String)
    (h : key_mem key tbl k = true) :
    key_mem key (upsert_row key merge tbl r) k = true := by
  unfold upsert_row
  by_cases hm : key_mem key tbl (key r)
  · simp only [hm, if_true]
    rw [aux_key_mem_map key _ (aux_chain_step_key key merge hK r)]
    exact h
  · simp only [hm, Bool.false_eq_true, if_false]
    unfold key_mem at h ⊢
    rw [List.any_append, h]
    rfl

theorem aux_upsert_row_self {R : Type} (key : R → String) (merge : R → R → R)
    (hK : ∀ a b, key (merge a b) = key a) (tbl : List R) (r : R) :
    key_mem key (upsert_row key merge tbl r) (key r) = true := by
  unfold upsert_row
  by_cases hm : key_mem key tbl (key r)
  · simp only [hm, if_true]
    rw [aux_key_mem_map key _ (aux_chain_step_key key merge hK r)]
    exact hm
  · simp only [hm, Bool.false_eq_true, if_false]
    unfold key_mem
    rw [List.any_append]
    simp

theorem aux_upsert_rows_mem {R : Type} (key : R → String) (merge : R → R → R)
    (hK : ∀ a b, key (merge a b) = key a) :
    ∀ (rs : List R) (tbl : List R) (k : String),
      key_mem key tbl k = true →
      key_mem key (upsert_rows key merge tbl rs) k = true := by
  intro rs
  induction rs with
  | nil => intro tbl k h; exact h
  | cons r t ih =>
    intro tbl k h
    exact ih (upsert_row key merge tbl r) k
      (aux_upsert_row_mem key merge hK tbl r k h)

theorem aux_mem_present {R : Type} (key : R → String) (merge : R → R → R)
    (hK : ∀ a b, key (merge a b) = key a) :
    ∀ (rs : List R) (tbl : List R) (r : R), r ∈ rs →
      key_mem key (upsert_rows key merge tbl rs) (key r) = true := by
  intro rs
  induction rs with
  | nil => intro tbl r h; simp at h
  | cons r0 t ih =>
    intro tbl r h
    rcases List.mem_cons.mp h with h1 | h2
    · subst h1
      exact aux_upsert_rows_mem key merge hK t (upsert_row key merge tbl r) (key r)
        (aux_upsert_row_self key merge hK tbl r)
    · exact ih (upsert_row key merge tbl r0) r h2

theorem aux_map_id_of {α : Type} (l : List α) (f : α → α)
    (h : ∀ x ∈ l, f x = x) : l.map f = l := by
  induction l with
  | nil => rfl
  | cons x t ih =>
    rw [List.map_cons, h x (List.mem_cons_self x t), ih]
    intro y hy
    exact h y (List.mem_cons_of_mem x hy)

theorem aux_upsert_all_map {R : Type} (key : R → String) (merge : R → R → R)
    (hK : ∀ a b, key (merge a b) = key a) :
    ∀ (rs : List R) (tbl : List R),
      (∀ r ∈ rs, key_mem key tbl (key r) = true) →
      upsert_rows key merge tbl rs = tbl.map (chain_all key merge rs) := by
  intro rs
  induction rs with
  | nil =>
    intro tbl _
    exact (aux_map_id_of tbl _ (fun x _ => rfl)).symm
  | cons r t ih =>
    intro tbl hall
    have hr := hall r (List.mem_cons_self r t)
    have hrow : upsert_row key merge tbl r
        = tbl.map (fun x => chain_step key merge x r) := by
      unfold upsert_row
      simp [hr]
    have hpres : ∀ s ∈ t, key_mem key (upsert_row key merge tbl r) (key s) = true := by
      intro s hs
      exact aux_upsert_row_mem key merge hK tbl r (key s)
        (hall s (List.mem_cons_of_mem r hs))
    have hstep : upsert_rows key merge tbl (r :: t)
        = upsert_rows key merge (upsert_row key merge tbl r) t := rfl
    rw [hstep, ih (upsert_row key merge tbl r) hpres, hrow, List.map_map]
    rfl

theorem aux_absorbed {R : Type} (key : R → String) (merge : R → R → R)
    (hM : ∀ a b c, merge (merge a b) c = merge a c)
    (hM2 : ∀ a, merge a a = a)
    (hK : ∀ a b, key (merge a b) = key a) :
    ∀ (rs : List R) (tbl : List R) (x : R),
      x ∈ upsert_rows key merge tbl rs → chain_all key merge rs x = x := by
  intro rs
  induction rs using List.reverseRecOn with
  | nil => intro tbl x _; rfl
  | append_singleton init r ih =>
    intro tbl x hx
    have hsplit : upsert_rows key merge tbl (init ++ [r])
        = upsert_row key merge (upsert_rows key merge tbl init) r := by
      unfold upsert_rows
      rw [List.foldl_append]
      rfl
    rw [hsplit] at hx
    have hchain : chain_all key merge (init ++ [r]) x
        = chain_step key merge (chain_all key merge init x) r := by
      unfold chain_all
      rw [List.foldl_append]
      rfl
    unfold upsert_row at hx
    by_cases hm : key_mem key (upsert_rows key merge tbl init) (key r)
    · rw [if_pos hm] at hx
      rcases List.mem_map.mp hx with ⟨x0, hx0S, hx0⟩
      have ihx0 := ih tbl x0 hx0S
      by_cases hk : key x0 = key r
      · have hxeq : x = merge x0 r := by
          rw [← hx0]
          unfold chain_step
          simp [hk]
        have hkey2 : key (chain_all key merge init (merge x0 r)) = key r := by
          rw [aux_chain_all_key key merge hK, hK, hk]
        rw [hchain, hxeq]
        unfold chain_step
        rw [if_pos hkey2, aux_merge_chain key merge hM, hM]
      · have hxeq : x = x0 := by
          rw [← hx0]
          unfold chain_step
          simp [hk]
        rw [hchain, hxeq, ihx0]
        unfold chain_step
        simp [hk]
    · rw [if_neg hm] at hx
      rcases List.mem_append.mp hx with hxS | hxr
      · have hid := ih tbl x hxS
        have hk : ¬(key x = key r) :=
          aux_key_mem_false key _ (key r) (by simpa using hm) x hxS
        rw [hchain, hid]
        unfold chain_step
        simp [hk]
      · have hx' : x = r := by simpa using hxr
        have hkr : key (chain_all key merge init r) = key r :=
          aux_chain_all_key key merge hK init r
        rw [hchain, hx']
        unfold chain_step
        rw [if_pos hkr, aux_merge_chain key merge hM, hM2]

theorem aux_upsert_rows_idem {R : Type} (key : R → String) (merge : R → R → R)
    (hM : ∀ a b c, merge (merge a b) c = merge a c)
    (hM2 : ∀ a, merge a a = a)
    (hK : ∀ a b, key (merge a b) = key a) (tbl : List R) (rs : List R) :
    upsert_rows key merge (upsert_rows key merge tbl rs) rs
      = upsert_rows key merge tbl rs := by
  have hpres : ∀ r ∈ rs, key_mem key (upsert_rows key merge tbl rs) (key r) = true :=
    fun r hr => aux_mem_present key merge hK rs tbl r hr
  rw [aux_upsert_all_map key merge hK rs _ hpres]
  exact aux_map_id_of _ _ (fun x hx => aux_absorbed key merge hM hM2 hK rs tbl x hx)

theorem merge_conv_assoc : ∀ a b c, merge_conv (merge_conv a b) c = merge_conv a c :=
  fun _ _ _ => rfl

theorem merge_conv_self : ∀ a, merge_conv a a = a := fun _ => rfl

theorem merge_conv_key :
    ∀ a b, (merge_conv a b).conversation_id = a.conversation_id :=
  fun _ _ => rfl

theorem merge_msg_assoc : ∀ a b c, merge_msg (merge_msg a b) c = merge_msg a c :=
  fun _ _ _ => rfl

theorem merge_msg_self : ∀ a, merge_msg a a = a := fun _ => rfl

theorem merge_msg_key : ∀ a b, (merge_msg a b).message_id = a.message_id :=
  fun _ _ => rfl

/-- C4: upserting an identical fetched batch twice — conversations or
messages — leaves the stored table exactly as after the first application:
same rows, same field values, hence same row counts. -/
theorem upsert_batches_idempotent :
    ∀ (tblc : List ConvRow) (tblm : List MsgRow) (pid cid : String)
      (convs : List FbConv) (msgs : List FbMsg),
      (upsert_conversations (upsert_conversations tblc pid convs).1 pid convs).1
        = (upsert_conversations tblc pid convs).1
      ∧ (upsert_messages (upsert_messages tblm pid cid msgs).1 pid cid msgs).1
        = (upsert_messages tblm pid cid msgs).1 := by
  intro tblc tblm pid cid convs msgs
  constructor
  · unfold upsert_conversations
    by_cases h : convs.isEmpty
    · simp [h]
    · simp only [h, Bool.false_eq_true, if_false]
      exact aux_upsert_rows_idem ConvRow.conversation_id merge_conv
        merge_conv_assoc merge_conv_self merge_conv_key tblc _
  · unfold upsert_messages
    by_cases h : msgs.isEmpty
    · simp [h]
    · simp only [h, Bool.false_eq_true, if_false]
      exact aux_upsert_rows_idem MsgRow.message_id merge_msg
        merge_msg_assoc merge_msg_self merge_msg_key tblm _

theorem aux_msg_loop_trace (page_id : String) (msgStream : String → List MsgPage) :
    ∀ (convs : List FbConv) (st : List MsgRow × Nat × List String),
      (convs.foldl (msg_loop_step page_id msgStream) st).2.2
        = st.2.2 ++ convs.map FbConv.id := by
  intro convs
  induction convs with
  | nil => intro st; simp
  | cons c t ih =>
    intro st
    rw [List.foldl_cons, ih]
    unfold msg_loop_step
    simp

theorem aux_isEmpty_eq_nil {α : Type} (l : List α) (h : l.isEmpty = true) :
    l = [] := by
  cases l with
  | nil => rfl
  | cons x t => simp [List.isEmpty] at h

/-- C5: when the conversation-list fetch succeeds, the conversations table is
rewritten by upserting every fetched conversation's metadata — including the
ones the change filter classifies as skipped — and the set of conversations
whose messages are fetched is exactly the changed list; the reported
conversation count is the full batch's. -/
theorem conv_metadata_upsert_unconditional :
    ∀ (parse : String → Option Int) (pid pname : String) (now : Int)
      (convStream : List ConvPage) (msgStream : String → List MsgPage) (db : Db),
      (fetch_conversations convStream).2 = none →
      (sync_page_model parse pid pname now convStream msgStream db).db.convs
        = (upsert_conversations db.convs pid (fetch_conversations convStream).1).1
      ∧ (sync_page_model parse pid pname now convStream msgStream db).fetched_msgs_for
        = (scan_convs parse (get_existing_conversations db.convs pid)
            (fetch_conversations convStream).1).1.map FbConv.id
      ∧ (sync_page_model parse pid pname now convStream msgStream db).result.conversations
        = (upsert_conversations db.convs pid (fetch_conversations convStream).1).2 := by
  intro parse pid pname now convStream msgStream db herr
  have h2 : py_truthy (fetch_conversations convStream).2 = false := by
    rw [herr]; rfl
  by_cases hempty : (fetch_conversations convStream).1.isEmpty
  · have hnil := aux_isEmpty_eq_nil _ hempty
    unfold sync_page_model
    simp [h2, hempty, hnil, scan_convs, upsert_conversations]
  · unfold sync_page_model
    simp only [h2, Bool.false_eq_true, if_false, hempty]
    refine ⟨by trivial, ?_, by trivial⟩
    dsimp only
    rw [aux_msg_loop_trace]
    simp

/-- Witness: the metadata-upsert equation of C5 at a concrete page whose
batch holds one changed and one unparseable conversation. -/
theorem conv_metadata_upsert_unconditional_witness :
    (sync_page_model ex_parse "p" "P" 0 c5_stream c5_msgStream c5_db).db.convs
      = (upsert_conversations c5_db.convs "p" (fetch_conversations c5_stream).1).1 :=
  (conv_metadata_upsert_unconditional ex_parse "p" "P" 0 c5_stream c5_msgStream
    c5_db (by decide)).1

theorem aux_cursor_untouched :
    ∀ (results : List PageTaskResult) (st : String → Option CursorRec)
      (pid : String),
      pid ∉ results.map PageTaskResult.page_id →
      update_sync_status st results pid = st pid := by
  intro results
  induction results with
  | nil => intro st pid _; rfl
  | cons r t ih =>
    intro st pid hpid
    simp only [List.map_cons, List.mem_cons] at hpid
    push_neg at hpid
    have hstep : update_sync_status st (r :: t) pid
        = update_sync_status (cursor_step st r) t pid := rfl
    rw [hstep, ih _ pid hpid.2]
    unfold cursor_step
    by_cases he : py_truthy r.error
    · simp [he]
    · simp [he, hpid.1]

theorem aux_truthy_of_err (e : Option String) (h1 : e ≠ none) (h2 : e ≠ some "") :
    py_truthy e = true := by
  cases e with
  | none => exact absurd rfl h1
  | some s =>
    have hs : s ≠ "" := fun hc => h2 (by rw [hc])
    simp [py_truthy, hs]

theorem aux_cursor_main :
    ∀ (results : List PageTaskResult) (status : String → Option CursorRec)
      (r : PageTaskResult), r ∈ results →
      (results.map PageTaskResult.page_id).Nodup →
      (∀ x ∈ results, x.error ≠ some "") →
      update_sync_status status results r.page_id
        = (if r.error = none
           then some ⟨r.sync_time, r.conversations, r.messages⟩
           else status r.page_id) := by
  intro results
  induction results with
  | nil => intro status r hmem _ _; simp at hmem
  | cons x t ih =>
    intro status r hmem hnodup hwf
    rw [List.map_cons, List.nodup_cons] at hnodup
    have hstep : update_sync_status status (x :: t) r.page_id
        = update_sync_status (cursor_step status x) t r.page_id := rfl
    rcases List.mem_cons.mp hmem with h1 | h2
    · subst h1
      have huntouched : update_sync_status (cursor_step status r) t r.page_id
          = cursor_step status r r.page_id :=
        aux_cursor_untouched t _ r.page_id hnodup.1
      rw [hstep, huntouched]
      unfold cursor_step
      cases he : r.error with
      | none => simp [py_truthy, he]
      | some s =>
        have htr : py_truthy r.error = true :=
          aux_truthy_of_err r.error (by rw [he]; exact fun hc => Option.noConfusion hc)
            (hwf r hmem)
        rw [he] at htr
        simp [htr, he]
    · have hne : r.page_id ≠ x.page_id := by
        intro hc
        exact hnodup.1 (hc ▸ List.mem_map.mpr ⟨r, h2, rfl⟩)
      have hcs : cursor_step status x r.page_id = status r.page_id := by
        unfold cursor_step
        by_cases hh : py_truthy x.error
        · simp [hh]
        · simp [hh, hne]
      rw [hstep, ih (cursor_step status x) r h2 hnodup.2
        (fun y hy => hwf y (List.mem_cons_of_mem x hy)), hcs]

theorem aux_sync_page_err_wf (parse : String → Option Int)
    (pid pname : String) (now : Int) (convS : List ConvPage)
    (msgS : String → List MsgPage) (db : Db) :
    (sync_page_model parse pid pname now convS msgS db).result.error ≠ some "" := by
  unfold sync_page_model
  by_cases h : py_truthy (fetch_conversations convS).2
  · simp only [h, if_true]
    intro hc
    simp only [hc] at h
    simp [py_truthy] at h
  · by_cases h2 : (fetch_conversations convS).1.isEmpty
    · simp [h, h2]
    · simp [h, h2]

/-- C6: at run end the cursor store is rewritten per tenant from its result
record (timestamp and counters) exactly when the result carries no error; a
tenant whose result carries an error keeps its previous entry (given that
result errors are never the empty string, which `sync_page` guarantees —
stated as the last conjunct). Distinct tenants are assumed to have distinct
page ids within one run's results. -/
theorem cursor_advanced_iff_no_error :
    ∀ (status : String → Option CursorRec) (results : List PageTaskResult)
      (r : PageTaskResult),
      r ∈ results →
      (results.map PageTaskResult.page_id).Nodup →
      (∀ x ∈ results, x.error ≠ some "") →
      ((r.error ≠ none →
          update_sync_status status results r.page_id = status r.page_id)
       ∧ (r.error = none →
           update_sync_status status results r.page_id
             = some ⟨r.sync_time, r.conversations, r.messages⟩)
       ∧ ∀ (parse : String → Option Int) (pid pname : String) (now : Int)
           (convS : List ConvPage) (msgS : String → List MsgPage) (db : Db),
           (sync_page_model parse pid pname now convS msgS db).result.error
             ≠ some "") := by
  intro status results r hmem hnodup hwf
  have hmain := aux_cursor_main results status r hmem hnodup hwf
  refine ⟨?_, ?_, fun parse pid pname now convS msgS db =>
    aux_sync_page_err_wf parse pid pname now convS msgS db⟩
  · intro hne
    rw [hmain, if_neg hne]
  · intro hnone
    rw [hmain, if_pos hnone]

/-- Witness: in a two-result run, the errored tenant "p1" keeps its (absent)
cursor entry and the clean tenant "p2" gets a fresh one. -/
theorem cursor_advanced_iff_no_error_witness :
    update_sync_status c6_status c6_results "p1" = c6_status "p1"
    ∧ update_sync_status c6_status c6_results "p2" = some ⟨9, 3, 4⟩ :=
  ⟨(cursor_advanced_iff_no_error c6_status c6_results c6_res_err (by decide)
      (by decide) (by decide)).1 (by decide),
   (cursor_advanced_iff_no_error c6_status c6_results c6_res_ok (by decide)
      (by decide) (by decide)).2.1 (by decide)⟩

theorem aux_fetch_msgs_go_pre :
    ∀ (pre : List (List FbMsg)) (acc : List FbMsg) (tail : List MsgPage),
      fetch_messages_go acc (pre.map (fun d => MsgPage.ok d true) ++ tail)
        = fetch_messages_go (acc ++ pre.flatten) tail := by
  intro pre
  induction pre with
  | nil => intro acc tail; simp
  | cons d t ih =>
    intro acc tail
    simp only [List.map_cons, List.cons_append]
    have hstep : fetch_messages_go acc
        (MsgPage.ok d true :: (t.map (fun d => MsgPage.ok d true) ++ tail))
        = fetch_messages_go (acc ++ d) (t.map (fun d => MsgPage.ok d true) ++ tail) := by
      simp [fetch_messages_go]
    rw [hstep, ih]
    simp

/-- C7: a message-list fetch hit by a transport failure or an API-reported
error after any number of full pages returns exactly the messages collected
before the failure, through a total function with no error channel; and the
tenant's result-record error is unaffected by the message oracle (hence by
message-level failures). -/
theorem msg_fetch_partial_and_silent :
    ∀ (pre : List (List FbMsg)) (e : String) (rest₁ rest₂ : List MsgPage),
      fetch_messages (pre.map (fun d => MsgPage.ok d true)
          ++ MsgPage.transport e :: rest₁) = pre.flatten
      ∧ fetch_messages (pre.map (fun d => MsgPage.ok d true)
          ++ MsgPage.apiError e :: rest₂) = pre.flatten
      ∧ ∀ (parse : String → Option Int) (pid pname : String) (now : Int)
          (convS : List ConvPage) (msgS₁ msgS₂ : String → List MsgPage) (db : Db),
          (sync_page_model parse pid pname now convS msgS₁ db).result.error
            = (sync_page_model parse pid pname now convS msgS₂ db).result.error := by
  intro pre e r1 r2
  refine ⟨?_, ?_, ?_⟩
  · unfold fetch_messages
    rw [aux_fetch_msgs_go_pre]
    simp [fetch_messages_go]
  · unfold fetch_messages
    rw [aux_fetch_msgs_go_pre]
    simp [fetch_messages_go]
  · intro parse pid pname now convS msgS₁ msgS₂ db
    unfold sync_page_model
    by_cases h : py_truthy (fetch_conversations convS).2
    · simp [h]
    · by_cases h2 : (fetch_conversations convS).1.isEmpty
      · simp [h, h2]
      · simp [h, h2]

/-- C8: when the batched write raises, the exception is caught (the function
returns normally), zero rows are reported, and the transaction is rolled back
as a unit: the committed table is unchanged and the pending state is reset to
it, so no row of the batch is applied. Holds for both the conversation and
the message upsert. -/
theorem failed_upsert_rolls_back_batch :
    ∀ (txc : Tx (List ConvRow)) (txm : Tx (List MsgRow)) (pid cid : String)
      (convs : List FbConv) (msgs : List FbMsg),
      txc.pending = txc.committed →
      txm.pending = txm.committed →
      ((upsert_conversations_tx txc pid convs true).1.committed = txc.committed
       ∧ (upsert_conversations_tx txc pid convs true).1.pending = txc.committed
       ∧ (upsert_conversations_tx txc pid convs true).2 = 0)
      ∧ ((upsert_messages_tx txm pid cid msgs true).1.committed = txm.committed
       ∧ (upsert_messages_tx txm pid cid msgs true).1.pending = txm.committed
       ∧ (upsert_messages_tx txm pid cid msgs true).2 = 0) := by
  intro txc txm pid cid convs msgs hc hm
  constructor
  · unfold upsert_conversations_tx
    by_cases h : convs.isEmpty
    · simp [h, hc]
    · simp [h]
  · unfold upsert_messages_tx
    by_cases h : msgs.isEmpty
    · simp [h, hm]
    · simp [h]

/-- Witness: the rollback contract at a concrete one-row batch. -/
theorem failed_upsert_rolls_back_batch_witness :
    (upsert_conversations_tx c8_txc "p" c8_convs true).1.committed
        = c8_txc.committed
    ∧ (upsert_messages_tx c8_txm "p" "c" c8_msgs true).2 = 0 :=
  ⟨(failed_upsert_rolls_back_batch c8_txc c8_txm "p" "c" c8_convs c8_msgs
      rfl rfl).1.1,
   (failed_upsert_rolls_back_batch c8_txc c8_txm "p" "c" c8_convs c8_msgs
      rfl rfl).2.2.2⟩

theorem aux_sync_page_name (parse : String → Option Int)
    (pid pname : String) (now : Int) (convS : List ConvPage)
    (msgS : String → List MsgPage) (db : Db) :
    (sync_page_model parse pid pname now convS msgS db).result.page_name
      = pname := by
  unfold sync_page_model
  by_cases h : py_truthy (fetch_conversations convS).2
  · simp [h]
  · by_cases h2 : (fetch_conversations convS).1.isEmpty
    · simp [h, h2]
    · simp [h, h2]

theorem aux_page_select_core (find_token : String → Option TokenData)
    (sync_status : String → Option CursorRec) (now : Int)
    (p : String × String) (t : PageTask)
    (h : page_select find_token sync_status now p = some t) :
    is_core p.2 = true ∧ t.page_name = p.2 := by
  unfold page_select at h
  split at h
  · exact Option.noConfusion h
  · next hcore =>
    constructor
    · cases hc : is_core p.2
      · exact absurd hc hcore
      · rfl
    · split at h
      · exact Option.noConfusion h
      · split at h
        · exact Option.noConfusion h
        · split at h
          · exact Option.noConfusion h
          · cases Option.some.inj h
            rfl

/-- C9: the incremental sync's page-selection uses exactly seven hard-coded
core names; every selected page task's name case-insensitively
substring-matches one of them (in either direction); a page whose name does
not match is excluded for every possible token store (i.e. before the
credential lookup) and yields no entry in the run's result records. -/
theorem core_page_gate :
    CORE_PAGES.length = 7
    ∧ (∀ (find_token : String → Option TokenData)
        (sync_status : String → Option CursorRec) (now : Int)
        (db_pages : List (String × String)) (t : PageTask),
        t ∈ pages_to_sync_model find_token sync_status now db_pages →
        is_core t.page_name = true)
    ∧ (∀ (find_token : String → Option TokenData)
        (sync_status : String → Option CursorRec) (now : Int)
        (db_pages : List (String × String)) (pname : String),
        is_core pname = false →
        pname ∉ (pages_to_sync_model find_token sync_status now db_pages).map
          PageTask.page_name)
    ∧ (∀ (parse : String → Option Int)
        (find_token : String → Option TokenData)
        (sync_status : String → Option CursorRec) (now : Int)
        (db_pages : List (String × String))
        (convStream : String → List ConvPage)
        (msgStream : String → List MsgPage) (db : Db) (pname : String),
        is_core pname = false →
        pname ∉ (main_results parse find_token sync_status now db_pages
            convStream msgStream db).map PageTaskResult.page_name) := by
  refine ⟨rfl, ?_, ?_, ?_⟩
  · intro ft ss now pages t ht
    rcases List.mem_filterMap.mp ht with ⟨p, _, hp⟩
    rcases aux_page_select_core ft ss now p t hp with ⟨hcore, hname⟩
    rw [hname]
    exact hcore
  · intro ft ss now pages pname hnc hmem
    rcases List.mem_map.mp hmem with ⟨t, ht, hteq⟩
    rcases List.mem_filterMap.mp ht with ⟨p, _, hp⟩
    rcases aux_page_select_core ft ss now p t hp with ⟨hcore, hname⟩
    have hct : is_core t.page_name = true := by rw [hname]; exact hcore
    rw [hteq] at hct
    rw [hct] at hnc
    exact Bool.noConfusion hnc
  · intro parse ft ss now pages cs ms db pname hnc hmem
    rcases List.mem_map.mp hmem with ⟨res, hres_mem, hres⟩
    rcases List.mem_map.mp hres_mem with ⟨t, ht, hteq⟩
    rw [← hteq, aux_sync_page_name] at hres
    rcases List.mem_filterMap.mp ht with ⟨p, _, hp⟩
    rcases aux_page_select_core ft ss now p t hp with ⟨hcore, hname⟩
    have hct : is_core t.page_name = true := by rw [hname]; exact hcore
    rw [hres] at hct
    rw [hct] at hnc
    exact Bool.noConfusion hnc

/-- Witness: "OtherPage" matches no core name, so with a token store that
would resolve anything it still yields no sync task. -/
theorem core_page_gate_witness :
    "OtherPage" ∉ (pages_to_sync_model c9_ft c9_ss 0 c9_pages).map
      PageTask.page_name :=
  core_page_gate.2.2.1 c9_ft c9_ss 0 c9_pages "OtherPage" (by decide)
